import Mathlib

/-!
# blazerod `pkg/v8engine` : the cgo bridge of `engine.go`

A shallow embedding of `engine.go`.  The Go code is a thin layer over a C
library (`v8engine.h`), so the embedding is state passing over a `World`:

* `Native` is the C side's memory: the live `malloc` buffers and the
  allocator's high-water mark.  `C.CString`, `C.CBytes`, `C.GoString` and
  `C.free` are modelled on it.
* `Registry` is the pair of package variables `nextResolverToken`,
  `resolverFuncs`.
* `World.log` records, in program order, every call the Go code of this file
  makes across the boundary (`Event`).
* the functions of `v8engine.h` are not part of the Go source; they are the
  fields of `V8`, and every theorem quantifies over all of them.

Pointers are natural numbers, `0` is `nil`/`NULL`.
-/

namespace V8Engine

/-! ## Machine integers -/

/-- Two's complement reading of `x` in a signed integer type of `w` bits: what a Go
conversion to that type, or an overflowing `++` on it, yields. -/
def wrapInt (w : Nat) (x : Int) : Int :=
  (x + 2 ^ (w - 1)) % 2 ^ w - 2 ^ (w - 1)

/-- The conversion `C.int(x)`: `int` is 32 bits wide in every cgo target. -/
def cInt (x : Int) : Int := wrapInt 32 x

/-! ## Native memory -/

/-- The text a C reader finds in a buffer filled from `s`: it stops at the first NUL. -/
def cText (s : String) : String :=
  String.mk (s.data.takeWhile (fun c => c ≠ Char.ofNat 0))

/-- Content of one `malloc` buffer: `text s` is the NUL terminated text `s`, `bytes b`
is raw bytes. -/
inductive Cell where
  | text (s : String)
  | bytes (b : List Nat)
  deriving DecidableEq, Repr

/-- The C heap: live buffers by address, and the highest address handed out. -/
structure Native where
  cells : List (Nat × Cell)
  brk : Nat
  deriving DecidableEq, Repr

/-- The call of `malloc` behind `C.CString` and `C.CBytes`: a fresh non-null address
holding a copy of the content. -/
def Native.alloc (c : Cell) (n : Native) : Nat × Native :=
  let p := n.brk + 1
  (p, { cells := (p, c) :: n.cells, brk := p })

/-- The call `C.free(p)`: `free(NULL)` does nothing, otherwise the buffer is gone. -/
def Native.free (p : Nat) (n : Native) : Native :=
  if p = 0 then n else { n with cells := n.cells.filter (fun c => c.1 ≠ p) }

/-- The call `C.GoString(p)`: the text of the buffer at `p`, copied into a Go string;
the empty string for `NULL`.  Reading an address that holds no live text (a use
after free) is undefined in C; the model yields the empty string. -/
def Native.GoString (p : Nat) (n : Native) : String :=
  if p = 0 then "" else
    match n.cells.lookup p with
    | some (Cell.text s) => s
    | _ => ""

/-! ## The boundary log -/

/-- One call made by the Go code of `engine.go` across the cgo boundary. -/
inductive Event where
  | InitV8
  | NewContext (ctx : Nat)
  | DisposeContext (ctx : Nat)
  | CString (p : Nat)
  | CBytes (p : Nat)
  | free (p : Nat)
  deriving DecidableEq, Repr

/-- The struct `Engine`; `hasFinalizer` is the runtime's record of
`runtime.SetFinalizer` for this object. -/
structure Engine where
  contextPtr : Nat
  hasFinalizer : Bool
  deriving DecidableEq, Repr

/-- The struct `Value` built by `&Value{rtn.value}`, with the runtime's finalizer
record. -/
structure Value where
  ptr : Nat
  hasFinalizer : Bool
  deriving DecidableEq, Repr

/-- The struct `JSError`. -/
structure JSError where
  Message : String
  Location : String
  StackTrace : String
  deriving DecidableEq, Repr

/-- A non-nil Go `error` produced by this file: a `*JSError` or the result of
`fmt.Errorf`. -/
inductive GoError where
  | js (e : JSError)
  | errorf (msg : String)
  deriving DecidableEq, Repr

/-- The field `error` of `C.RtnValue`. -/
structure RtnError where
  msg : Nat
  location : Nat
  stack : Nat
  deriving DecidableEq, Repr

/-- The struct `C.RtnValue` returned by `C.Run`. -/
structure RtnValue where
  value : Nat
  error : RtnError
  deriving DecidableEq, Repr

/-- The package variables `nextResolverToken` and `resolverFuncs`; `κ` is the type
`ModuleResolverCallback`. -/
structure Registry (κ : Type) where
  nextResolverToken : Int
  resolverFuncs : List (Int × κ)

/-- Everything the functions of `engine.go` read or write. -/
structure World (κ : Type) where
  v8init : Bool
  registry : Registry κ
  native : Native
  log : List Event

/-- The functions declared in `v8engine.h`.  Each one may change native memory at
will; `LoadModule` also runs Go callbacks, so it may change the registry. -/
structure V8 (κ : Type) where
  InitV8 : Native → Native
  NewContext : Native → Nat × Native
  DisposeContext : Nat → Native → Native
  Run : Nat → Nat → Nat → Native → RtnValue × Native
  LoadModule : Nat → Nat → Nat → Int → Registry κ × Native → Int × (Registry κ × Native)
  Send : Nat → Nat → Nat → Native → Int × Native

/-! ## The resolver table -/

/-- The map read `resolverFuncs[k]`. -/
def tableLookup {κ : Type} (k : Int) (t : List (Int × κ)) : Option κ :=
  t.lookup k

/-- The builtin `delete(resolverFuncs, k)`. -/
def tableDelete {κ : Type} (k : Int) (t : List (Int × κ)) : List (Int × κ) :=
  t.filter (fun e => e.1 ≠ k)

/-- The map write `resolverFuncs[k] = v`. -/
def tableStore {κ : Type} (k : Int) (v : κ) (t : List (Int × κ)) : List (Int × κ) :=
  (k, v) :: tableDelete k t

/-! ## `engine.go` -/

/-- The function `getValue` (lines 91-98). -/
def getValue (rtn : RtnValue) : Option Value :=
  if rtn.value = 0 then none
  else some { ptr := rtn.value, hasFinalizer := true }

/-- The function `getError` (lines 100-113): copy the three texts, then free the three
buffers. -/
def getError {κ : Type} (rtn : RtnValue) (w : World κ) : Option GoError × World κ :=
  if rtn.error.msg = 0 then (none, w)
  else
    let err : JSError :=
      { Message := w.native.GoString rtn.error.msg
        Location := w.native.GoString rtn.error.location
        StackTrace := w.native.GoString rtn.error.stack }
    let n1 := w.native.free rtn.error.msg
    let n2 := n1.free rtn.error.location
    let n3 := n2.free rtn.error.stack
    (some (GoError.js err),
      { w with
        native := n3
        log := w.log ++ [Event.free rtn.error.msg, Event.free rtn.error.location,
          Event.free rtn.error.stack] })

/-- The result of line 45 of `Engine.Run`: the two `C.CString` copies are made, then
`C.Run` is entered with them. -/
def Engine.Run.rtn {κ : Type} (v8 : V8 κ) (e : Engine) (source origin : String)
    (w : World κ) : RtnValue × Native :=
  let a := w.native.alloc (Cell.text (cText source))
  let b := a.2.alloc (Cell.text (cText origin))
  v8.Run e.contextPtr a.1 b.1 b.2

/-- The method `Engine.Run` (lines 39-47).  The operands of `return` are evaluated
first, then the deferred calls run, last deferred first. -/
def Engine.Run {κ : Type} (v8 : V8 κ) (e : Engine) (source origin : String)
    (w : World κ) : (Option Value × Option GoError) × World κ :=
  let a := w.native.alloc (Cell.text (cText source))
  let b := a.2.alloc (Cell.text (cText origin))
  let r := Engine.Run.rtn v8 e source origin w
  let w1 : World κ :=
    { w with native := r.2, log := w.log ++ [Event.CString a.1, Event.CString b.1] }
  let v := getValue r.1
  let ge := getError r.1 w1
  ((v, ge.1),
    { ge.2 with
      native := (ge.2.native.free b.1).free a.1
      log := ge.2.log ++ [Event.free b.1, Event.free a.1] })

/-- Lines 56-60 of `Engine.LoadModule`, the register step, under the table lock:
`nextResolverToken++`, `token := nextResolverToken`, `resolverFuncs[token] = resolve`.
`intBits` is the width of the Go integer type of `nextResolverToken`, whose
declaration is outside `engine.go`. -/
def registerStep {κ : Type} (intBits : Nat) (resolve : κ) (r : Registry κ) :
    Int × Registry κ :=
  let next := wrapInt intBits (r.nextResolverToken + 1)
  let token := next
  (token, { nextResolverToken := next
            resolverFuncs := tableStore token resolve r.resolverFuncs })

/-- Lines 66-68 of `Engine.LoadModule`, the delete step, under the table lock. -/
def deleteStep {κ : Type} (token : Int) (r : Registry κ) : Registry κ :=
  { r with resolverFuncs := tableDelete token r.resolverFuncs }

/-- The arguments of the call of `C.LoadModule` on line 64. -/
structure LoadModuleCall (κ : Type) where
  token : Int
  ctx : Nat
  cSource : Nat
  cOrigin : Nat
  cToken : Int
  registry : Registry κ
  native : Native

/-- Lines 51-62 of `Engine.LoadModule`: everything up to the entry into
`C.LoadModule`. -/
def Engine.LoadModule.call {κ : Type} (intBits : Nat) (e : Engine)
    (source origin : String) (resolve : κ) (w : World κ) : LoadModuleCall κ :=
  let a := w.native.alloc (Cell.text (cText source))
  let b := a.2.alloc (Cell.text (cText origin))
  let reg := registerStep intBits resolve w.registry
  let token := reg.1
  { token := token
    ctx := e.contextPtr
    cSource := a.1
    cOrigin := b.1
    cToken := cInt token
    registry := reg.2
    native := b.2 }

/-- The result of line 64 of `Engine.LoadModule`: the status `C.LoadModule` answers
with, and the registry and native memory as it leaves them. -/
def Engine.LoadModule.rtn {κ : Type} (intBits : Nat) (v8 : V8 κ) (e : Engine)
    (source origin : String) (resolve : κ) (w : World κ) :
    Int × (Registry κ × Native) :=
  let c := Engine.LoadModule.call intBits e source origin resolve w
  v8.LoadModule c.ctx c.cSource c.cOrigin c.cToken (c.registry, c.native)

/-- The method `Engine.LoadModule` (lines 50-71).  The conversion `int(rtn)` widens a
C `int`, so the status is returned as it is. -/
def Engine.LoadModule {κ : Type} (intBits : Nat) (v8 : V8 κ) (e : Engine)
    (source origin : String) (resolve : κ) (w : World κ) : Int × World κ :=
  let c := Engine.LoadModule.call intBits e source origin resolve w
  let r := Engine.LoadModule.rtn intBits v8 e source origin resolve w
  (r.1,
    { v8init := w.v8init
      registry := deleteStep c.token r.2.1
      native := (r.2.2.free c.cOrigin).free c.cSource
      log := w.log ++ [Event.CString c.cSource, Event.CString c.cOrigin,
        Event.free c.cOrigin, Event.free c.cSource] })

/-- The verb `%d` of `fmt` on an integer: an optional minus sign and the decimal
digits. -/
def fmtD (x : Int) : String :=
  if x < 0 then "-" ++ Nat.repr x.natAbs else Nat.repr x.natAbs

/-- The value of a decimal digit character. -/
def digitValue (c : Char) : Nat := c.toNat - 48

/-- The number a run of decimal digits denotes. -/
def parseNat (cs : List Char) : Nat :=
  cs.foldl (fun a c => 10 * a + digitValue c) 0

/-- The integer a decimal numeral with an optional leading minus sign denotes. -/
def parseD (s : String) : Int :=
  match s.data with
  | '-' :: cs => -(parseNat cs : Int)
  | cs => (parseNat cs : Int)

/-- The method `Engine.Send` (lines 74-82). -/
def Engine.Send {κ : Type} (v8 : V8 κ) (e : Engine) (msg : List Nat) (w : World κ) :
    Option GoError × World κ :=
  let m := w.native.alloc (Cell.bytes msg)
  let r := v8.Send e.contextPtr msg.length m.1 m.2
  let w1 : World κ := { w with native := r.2, log := w.log ++ [Event.CBytes m.1] }
  if r.1 ≠ 0 then (some (GoError.errorf ("expected 0, got " ++ fmtD r.1)), w1)
  else (none, w1)

/-- Every key of the resolver table is at most the token counter. -/
def Registry.keysBounded {κ : Type} (r : Registry κ) : Prop :=
  ∀ e ∈ r.resolverFuncs, e.1 ≤ r.nextResolverToken

instance Registry.decidableKeysBounded {κ : Type} (r : Registry κ) :
    Decidable r.keysBounded := by
  unfold Registry.keysBounded
  infer_instance

/-- A run of register steps, one per callback, with the tokens they allocate in
order. -/
def registerSteps {κ : Type} (intBits : Nat) : List κ → Registry κ → List Int × Registry κ
  | [], r => ([], r)
  | cb :: cbs, r =>
    let s := registerStep intBits cb r
    let rest := registerSteps intBits cbs s.2
    (s.1 :: rest.1, rest.2)

/-- A foreign side that leaves memory and registry alone: `C.Run` answers `rtn`,
`C.LoadModule` and `C.Send` answer `status`, `C.NewContext` hands out the handle
`41`. -/
def v8Fixed (rtn : RtnValue) (status : Int) : V8 Nat where
  InitV8 := fun n => n
  NewContext := fun n => (41, n)
  DisposeContext := fun _ n => n
  Run := fun _ _ _ n => (rtn, n)
  LoadModule := fun _ _ _ _ s => (status, s)
  Send := fun _ _ _ n => (status, n)

/-- The state of a process that has not touched the package yet. -/
def World.fresh : World Nat where
  v8init := false
  registry := { nextResolverToken := 0, resolverFuncs := [] }
  native := { cells := [], brk := 0 }
  log := []

/-- A foreign side whose `C.Run` throws: it allocates the three texts of an error
record at the addresses `101`, `102`, `103` and answers with `value` next to that
record. -/
def v8Throwing (value : Nat) : V8 Nat where
  InitV8 := fun n => n
  NewContext := fun n => (41, n)
  DisposeContext := fun _ n => n
  Run := fun _ _ _ n =>
    (⟨value, ⟨101, 102, 103⟩⟩,
      { cells := (101, Cell.text "SyntaxError: Unexpected end of input") ::
          (102, Cell.text "test.js:1") :: (103, Cell.text "at test.js:1:2") :: n.cells
        brk := 103 })
  LoadModule := fun _ _ _ _ s => (1, s)
  Send := fun _ _ _ n => (1, n)

/-- The world right after a throwing `C.Run`: the three texts of the error record
`⟨101, 102, 103⟩` are live, next to an unrelated buffer at `55`. -/
def World.thrown : World Nat where
  v8init := true
  registry := { nextResolverToken := 0, resolverFuncs := [] }
  native :=
    { cells := [(101, Cell.text "ReferenceError: x is not defined"),
        (102, Cell.text "test.js:3"), (55, Cell.bytes [1, 2]),
        (103, Cell.text "at f (test.js:3:1)")]
      brk := 103 }
  log := [Event.InitV8, Event.NewContext 41]

/-- An engine on the handle `41`. -/
def engine41 : Engine := { contextPtr := 41, hasFinalizer := true }

/-! ## Marshaling of the result of `Run` -/

theorem getError_fst {κ : Type} (rtn : RtnValue) (w : World κ) :
    (getError rtn w).1 =
      if rtn.error.msg = 0 then none
      else some (GoError.js
        { Message := w.native.GoString rtn.error.msg
          Location := w.native.GoString rtn.error.location
          StackTrace := w.native.GoString rtn.error.stack }) := by
  unfold getError
  split <;> rfl

/-- C1: when the raw result of `C.Run` has exactly one side populated, `Engine.Run`
returns that side and only that side: a populated value handle gives a `Value`
wrapping the same handle and a nil error, a populated error record gives a nil
`Value` and a `JSError`; the pair is never both non-nil nor both nil. -/
theorem Run_returns_the_populated_side {κ : Type} (v8 : V8 κ) (e : Engine)
    (source origin : String) (w : World κ)
    (h : ((Engine.Run.rtn v8 e source origin w).1.value ≠ 0 ∧
            (Engine.Run.rtn v8 e source origin w).1.error.msg = 0) ∨
         ((Engine.Run.rtn v8 e source origin w).1.value = 0 ∧
            (Engine.Run.rtn v8 e source origin w).1.error.msg ≠ 0)) :
    ((Engine.Run.rtn v8 e source origin w).1.value ≠ 0 →
        (Engine.Run v8 e source origin w).1 =
          (some { ptr := (Engine.Run.rtn v8 e source origin w).1.value,
                  hasFinalizer := true }, none)) ∧
    ((Engine.Run.rtn v8 e source origin w).1.error.msg ≠ 0 →
        (Engine.Run v8 e source origin w).1.1 = none ∧
        ∃ je : JSError, (Engine.Run v8 e source origin w).1.2 = some (GoError.js je)) ∧
    ¬ ((Engine.Run v8 e source origin w).1.1 ≠ none ∧
        (Engine.Run v8 e source origin w).1.2 ≠ none) ∧
    ¬ ((Engine.Run v8 e source origin w).1.1 = none ∧
        (Engine.Run v8 e source origin w).1.2 = none) := by
  have hv : (Engine.Run v8 e source origin w).1.1 =
      getValue (Engine.Run.rtn v8 e source origin w).1 := rfl
  have he : (Engine.Run v8 e source origin w).1.2 =
      if (Engine.Run.rtn v8 e source origin w).1.error.msg = 0 then none
      else some (GoError.js
        { Message := (Engine.Run.rtn v8 e source origin w).2.GoString
            (Engine.Run.rtn v8 e source origin w).1.error.msg
          Location := (Engine.Run.rtn v8 e source origin w).2.GoString
            (Engine.Run.rtn v8 e source origin w).1.error.location
          StackTrace := (Engine.Run.rtn v8 e source origin w).2.GoString
            (Engine.Run.rtn v8 e source origin w).1.error.stack }) := by
    show (getError _ _).1 = _
    rw [getError_fst]
  rcases h with ⟨h1, h2⟩ | ⟨h1, h2⟩
  · refine ⟨fun _ => ?_, fun h3 => absurd h2 h3, ?_, ?_⟩
    · apply Prod.ext
      · rw [hv]; simp [getValue, h1]
      · rw [he]; simp [h2]
    · rw [he]; simp [h2]
    · rw [hv]; simp [getValue, h1]
  · refine ⟨fun h3 => absurd h1 h3, fun _ => ⟨?_, ?_⟩, ?_, ?_⟩
    · rw [hv]; simp [getValue, h1]
    · rw [he]; simp [h2]
    · rw [hv]; simp [getValue, h1]
    · rw [he]; simp [h2]

/-- C1 evaluated: once `C.Run` answers the value handle `7` and no error, once it
answers no value and the error record `⟨101, 102, 103⟩`. -/
theorem Run_returns_the_populated_side_witness :
    (Engine.Run (v8Fixed ⟨7, ⟨0, 0, 0⟩⟩ 0) engine41 "40 + 2" "test.js" World.fresh).1 =
      (some { ptr := 7, hasFinalizer := true }, none) ∧
    ((Engine.Run (v8Throwing 0) engine41 "(" "test.js" World.fresh).1.1 = none ∧
      ∃ je : JSError,
        (Engine.Run (v8Throwing 0) engine41 "(" "test.js" World.fresh).1.2 =
          some (GoError.js je)) :=
  ⟨(Run_returns_the_populated_side (v8Fixed ⟨7, ⟨0, 0, 0⟩⟩ 0) engine41 "40 + 2" "test.js"
      World.fresh (Or.inl ⟨by decide, by decide⟩)).1 (by decide),
   (Run_returns_the_populated_side (v8Throwing 0) engine41 "(" "test.js"
      World.fresh (Or.inr ⟨by decide, by decide⟩)).2.1 (by decide)⟩

/-- C2, as stated, fails: `Engine.Run` has no check of the raw result.  When `C.Run`
answers with neither side populated the caller gets a nil `Value` and a nil error,
and when it answers with both sides populated the caller gets both non-nil. -/
theorem Run_asserts_nothing_counterexample :
    (Engine.Run (v8Fixed ⟨0, ⟨0, 0, 0⟩⟩ 0) engine41 "40 + 2" "test.js" World.fresh).1 =
      (none, none) ∧
    (Engine.Run (v8Throwing 7) engine41 "(" "test.js" World.fresh).1 =
      (some { ptr := 7, hasFinalizer := true },
        some (GoError.js
          { Message := "SyntaxError: Unexpected end of input"
            Location := "test.js:1"
            StackTrace := "at test.js:1:2" })) := by
  constructor <;> rfl

/-- C2 amended: `Engine.Run` passes a malformed raw result through.  With both sides
populated it returns the `Value` wrapping the handle together with a `JSError`; with
neither side populated it returns a nil `Value` and a nil error. -/
theorem Run_passes_malformed_result_through {κ : Type} (v8 : V8 κ) (e : Engine)
    (source origin : String) (w : World κ) :
    ((Engine.Run.rtn v8 e source origin w).1.value ≠ 0 ∧
      (Engine.Run.rtn v8 e source origin w).1.error.msg ≠ 0 →
        (Engine.Run v8 e source origin w).1.1 =
          some { ptr := (Engine.Run.rtn v8 e source origin w).1.value,
                 hasFinalizer := true } ∧
        ∃ je : JSError, (Engine.Run v8 e source origin w).1.2 = some (GoError.js je)) ∧
    ((Engine.Run.rtn v8 e source origin w).1.value = 0 ∧
      (Engine.Run.rtn v8 e source origin w).1.error.msg = 0 →
        (Engine.Run v8 e source origin w).1 = (none, none)) := by
  have hv : (Engine.Run v8 e source origin w).1.1 =
      getValue (Engine.Run.rtn v8 e source origin w).1 := rfl
  have he : (Engine.Run v8 e source origin w).1.2 =
      (getError (Engine.Run.rtn v8 e source origin w).1
        ({ w with
           native := (Engine.Run.rtn v8 e source origin w).2
           log := w.log ++
             [Event.CString (w.native.alloc (Cell.text (cText source))).1,
              Event.CString ((w.native.alloc (Cell.text (cText source))).2.alloc
                (Cell.text (cText origin))).1] } : World κ)).1 := rfl
  rw [getError_fst] at he
  constructor
  · rintro ⟨h1, h2⟩
    refine ⟨?_, ?_⟩
    · rw [hv]; simp [getValue, h1]
    · rw [he]; simp [h2]
  · rintro ⟨h1, h2⟩
    apply Prod.ext
    · rw [hv]; simp [getValue, h1]
    · rw [he]; simp [h2]

/-- C2 amended, evaluated on a raw result with both sides populated and on one with
neither. -/
theorem Run_passes_malformed_result_through_witness :
    ((Engine.Run (v8Throwing 7) engine41 "(" "test.js" World.fresh).1.1 =
        some { ptr := 7, hasFinalizer := true } ∧
      ∃ je : JSError,
        (Engine.Run (v8Throwing 7) engine41 "(" "test.js" World.fresh).1.2 =
          some (GoError.js je)) ∧
    (Engine.Run (v8Fixed ⟨0, ⟨0, 0, 0⟩⟩ 0) engine41 "(" "test.js" World.fresh).1 =
      (none, none) :=
  ⟨(Run_passes_malformed_result_through (v8Throwing 7) engine41 "(" "test.js"
      World.fresh).1 ⟨by decide, by decide⟩,
   (Run_passes_malformed_result_through (v8Fixed ⟨0, ⟨0, 0, 0⟩⟩ 0) engine41 "(" "test.js"
      World.fresh).2 ⟨by decide, by decide⟩⟩

/-! ## Native memory lemmas -/

theorem lookup_filter_ne {α β : Type} [DecidableEq α] (p q : α) (l : List (α × β)) :
    (l.filter (fun c => c.1 ≠ q)).lookup p = if p = q then none else l.lookup p := by
  induction l with
  | nil => simp
  | cons c l ih =>
    obtain ⟨k, v⟩ := c
    by_cases hk : k = q
    · subst hk
      rw [List.filter_cons_of_neg (by simp), ih]
      by_cases hp : p = k
      · simp [hp]
      · have : (p == k) = false := by simpa using hp
        simp [hp, List.lookup_cons, this]
    · rw [List.filter_cons_of_pos (by simpa using hk)]
      by_cases hp : p = k
      · subst hp
        simp [hk, List.lookup_cons]
      · have : (p == k) = false := by simpa using hp
        simp only [List.lookup_cons, this, ih]

theorem Native.free_lookup (p q : Nat) (n : Native) :
    (n.free q).cells.lookup p =
      if q ≠ 0 ∧ p = q then none else n.cells.lookup p := by
  unfold Native.free
  by_cases hq : q = 0
  · simp [hq]
  · simp only [hq, if_false, lookup_filter_ne, ne_eq, not_false_eq_true, true_and]

theorem Native.GoString_of_text (p : Nat) (n : Native) (s : String) (hp : p ≠ 0)
    (h : n.cells.lookup p = some (Cell.text s)) : n.GoString p = s := by
  simp [Native.GoString, hp, h]

/-! ## `getError` -/

/-- C7: for every raw result whose error record is populated (`msg` non-null),
`getError` returns the `JSError` whose three fields are what `C.GoString` reads at
`msg`, `location` and `stack` in the memory of the time of the call, so the texts of
those buffers when they are live text buffers; the calls of `C.free` it makes are
exactly one on each of the three pointers, so each of three distinct buffers is
released once; afterwards none of the three buffers is live and every other buffer
is untouched.  For a raw result whose `msg` is null it returns nil and leaves memory
and log as they are. -/
theorem getError_copies_then_releases {κ : Type} (rtn : RtnValue) (w : World κ)
    (hmsg : rtn.error.msg ≠ 0) :
    (getError rtn w).1 =
      some (GoError.js
        { Message := w.native.GoString rtn.error.msg
          Location := w.native.GoString rtn.error.location
          StackTrace := w.native.GoString rtn.error.stack }) ∧
    (∀ m l s : String, rtn.error.location ≠ 0 → rtn.error.stack ≠ 0 →
      w.native.cells.lookup rtn.error.msg = some (Cell.text m) →
      w.native.cells.lookup rtn.error.location = some (Cell.text l) →
      w.native.cells.lookup rtn.error.stack = some (Cell.text s) →
      (getError rtn w).1 =
        some (GoError.js { Message := m, Location := l, StackTrace := s })) ∧
    (getError rtn w).2.log =
      w.log ++ [Event.free rtn.error.msg, Event.free rtn.error.location,
        Event.free rtn.error.stack] ∧
    (rtn.error.msg ≠ rtn.error.location → rtn.error.msg ≠ rtn.error.stack →
      rtn.error.location ≠ rtn.error.stack →
      ∀ p, p ∈ [rtn.error.msg, rtn.error.location, rtn.error.stack] →
        ((getError rtn w).2.log.drop w.log.length).count (Event.free p) = 1) ∧
    (∀ p, p ∈ [rtn.error.msg, rtn.error.location, rtn.error.stack] → p ≠ 0 →
      (getError rtn w).2.native.cells.lookup p = none) ∧
    (∀ p, p ∉ [rtn.error.msg, rtn.error.location, rtn.error.stack] →
      (getError rtn w).2.native.cells.lookup p = w.native.cells.lookup p) ∧
    (∀ rtn0 : RtnValue, rtn0.error.msg = 0 → getError rtn0 w = (none, w)) := by
  have hlog : (getError rtn w).2.log =
      w.log ++ [Event.free rtn.error.msg, Event.free rtn.error.location,
        Event.free rtn.error.stack] := by
    simp [getError, hmsg]
  have hnat : (getError rtn w).2.native =
      ((w.native.free rtn.error.msg).free rtn.error.location).free rtn.error.stack := by
    simp [getError, hmsg]
  have hres := getError_fst rtn w
  rw [if_neg hmsg] at hres
  refine ⟨hres, ?_, hlog, ?_, ?_, ?_, ?_⟩
  · intro m l s hloc hstk hm hl hs
    rw [hres, Native.GoString_of_text _ _ m hmsg hm,
      Native.GoString_of_text _ _ l hloc hl, Native.GoString_of_text _ _ s hstk hs]
  · intro hd1 hd2 hd3 p hp
    rw [hlog, List.drop_left]
    simp only [List.mem_cons, List.mem_singleton, List.not_mem_nil, or_false] at hp
    rcases hp with rfl | rfl | rfl
    · simp [List.count_cons, hd1, hd2, Ne.symm hd1, Ne.symm hd2]
    · simp [List.count_cons, hd1, hd3, Ne.symm hd1, Ne.symm hd3]
    · simp [List.count_cons, hd2, hd3, Ne.symm hd2, Ne.symm hd3]
  · intro p hp hp0
    rw [hnat]
    simp only [Native.free_lookup]
    simp only [List.mem_cons, List.mem_singleton, List.not_mem_nil, or_false] at hp
    rcases hp with rfl | rfl | rfl
    · by_cases h1 : rtn.error.stack ≠ 0 ∧ rtn.error.msg = rtn.error.stack
      · simp [h1]
      · by_cases h2 : rtn.error.location ≠ 0 ∧ rtn.error.msg = rtn.error.location
        · simp [h2]
        · simp [hp0]
    · by_cases h1 : rtn.error.stack ≠ 0 ∧ rtn.error.location = rtn.error.stack
      · simp [h1]
      · simp [hp0]
    · simp [hp0]
  · intro p hp
    simp only [List.mem_cons, List.mem_singleton, List.not_mem_nil, or_false,
      not_or] at hp
    rw [hnat]
    simp [Native.free_lookup, hp.1, hp.2.1, hp.2.2]
  · intro rtn0 h0
    simp [getError, h0]

/-- C7 evaluated on the error record `⟨101, 102, 103⟩` of `World.thrown`. -/
theorem getError_copies_then_releases_witness :
    (getError ⟨0, ⟨101, 102, 103⟩⟩ World.thrown).1 =
      some (GoError.js
        { Message := "ReferenceError: x is not defined"
          Location := "test.js:3"
          StackTrace := "at f (test.js:3:1)" }) ∧
    (getError ⟨0, ⟨101, 102, 103⟩⟩ World.thrown).2.log =
      [Event.InitV8, Event.NewContext 41, Event.free 101, Event.free 102,
        Event.free 103] ∧
    ((getError ⟨0, ⟨101, 102, 103⟩⟩ World.thrown).2.log.drop
      World.thrown.log.length).count (Event.free 102) = 1 ∧
    (getError ⟨0, ⟨101, 102, 103⟩⟩ World.thrown).2.native.cells.lookup 102 = none :=
  have h := @getError_copies_then_releases Nat ⟨0, ⟨101, 102, 103⟩⟩ World.thrown
    (by decide)
  ⟨h.2.1 "ReferenceError: x is not defined" "test.js:3" "at f (test.js:3:1)"
      (by decide) (by decide) rfl rfl rfl,
   h.2.2.1,
   h.2.2.2.1 (by decide) (by decide) (by decide) 102 (by decide),
   h.2.2.2.2.1 102 (by decide) (by decide)⟩

/-! ## The resolver table -/

theorem tableLookup_delete {κ : Type} (j k : Int) (t : List (Int × κ)) :
    tableLookup j (tableDelete k t) = if j = k then none else tableLookup j t := by
  unfold tableLookup tableDelete
  exact lookup_filter_ne j k t

theorem tableLookup_store {κ : Type} (j k : Int) (v : κ) (t : List (Int × κ)) :
    tableLookup j (tableStore k v t) = if j = k then some v else tableLookup j t := by
  by_cases h : j = k
  · subst h
    simp [tableLookup, tableStore, List.lookup_cons]
  · have hb : (j == k) = false := by simpa using h
    have := tableLookup_delete j k t
    simp only [h, if_false] at this
    simpa [tableLookup, tableStore, List.lookup_cons, hb, h] using this

theorem mem_tableDelete {κ : Type} (k : Int) (t : List (Int × κ)) (e : Int × κ) :
    e ∈ tableDelete k t ↔ e ∈ t ∧ e.1 ≠ k := by
  simp [tableDelete, List.mem_filter]

theorem tableLookup_eq_none_of_not_key {κ : Type} (k : Int) (t : List (Int × κ))
    (h : ∀ v, (k, v) ∉ t) : tableLookup k t = none := by
  induction t with
  | nil => rfl
  | cons c t ih =>
    obtain ⟨j, v⟩ := c
    have hj : k ≠ j := by
      intro hkj
      exact h v (by simp [hkj])
    have hb : (k == j) = false := by simpa using hj
    have ht : ∀ v, (k, v) ∉ t := fun v hv => h v (List.mem_cons_of_mem _ hv)
    simpa [tableLookup, List.lookup_cons, hb] using ih ht

/-- C3: when `Engine.LoadModule` returns, the resolver table has no entry under the
token the call allocated, every other key reads exactly what it read when
`C.LoadModule` came back, and the counter is as `C.LoadModule` left it: the registry
is the one the foreign call left with the single delete step applied, for every
status the foreign call answers. -/
theorem LoadModule_unregisters_its_token {κ : Type} (intBits : Nat) (v8 : V8 κ)
    (e : Engine) (source origin : String) (resolve : κ) (w : World κ) :
    tableLookup (Engine.LoadModule.call intBits e source origin resolve w).token
      (Engine.LoadModule intBits v8 e source origin resolve w).2.registry.resolverFuncs
        = none ∧
    (∀ v, ((Engine.LoadModule.call intBits e source origin resolve w).token, v) ∉
      (Engine.LoadModule intBits v8 e source origin resolve w).2.registry.resolverFuncs) ∧
    (∀ k, k ≠ (Engine.LoadModule.call intBits e source origin resolve w).token →
      tableLookup k
        (Engine.LoadModule intBits v8 e source origin resolve w).2.registry.resolverFuncs
        = tableLookup k
            (Engine.LoadModule.rtn intBits v8 e source origin resolve w).2.1.resolverFuncs) ∧
    (Engine.LoadModule intBits v8 e source origin resolve w).2.registry.nextResolverToken
      = (Engine.LoadModule.rtn intBits v8 e source origin resolve w).2.1.nextResolverToken ∧
    (Engine.LoadModule intBits v8 e source origin resolve w).2.registry
      = deleteStep (registerStep intBits resolve w.registry).1
          (Engine.LoadModule.rtn intBits v8 e source origin resolve w).2.1 ∧
    (Engine.LoadModule intBits v8 e source origin resolve w).1
      = (Engine.LoadModule.rtn intBits v8 e source origin resolve w).1 := by
  have hreg : (Engine.LoadModule intBits v8 e source origin resolve w).2.registry
      = deleteStep (Engine.LoadModule.call intBits e source origin resolve w).token
          (Engine.LoadModule.rtn intBits v8 e source origin resolve w).2.1 := rfl
  refine ⟨?_, ?_, ?_, ?_, ?_, rfl⟩
  · rw [hreg]
    simp [deleteStep, tableLookup_delete]
  · intro v hv
    rw [hreg] at hv
    have := (mem_tableDelete _ _ _).1 hv
    exact this.2 rfl
  · intro k hk
    rw [hreg]
    simp [deleteStep, tableLookup_delete, hk]
  · rw [hreg]; rfl
  · rw [hreg]; rfl

/-! ## Token allocation -/

theorem wrapInt_of_range (w : Nat) (x : Int) (hw : 1 ≤ w)
    (hlo : -(2 ^ (w - 1)) ≤ x) (hhi : x < 2 ^ (w - 1)) : wrapInt w x = x := by
  unfold wrapInt
  have h2 : (2 : Int) ^ w = 2 * 2 ^ (w - 1) := by
    obtain ⟨n, rfl⟩ : ∃ n, w = n + 1 := ⟨w - 1, by omega⟩
    simp [pow_succ, mul_comm]
  rw [h2, Int.emod_eq_of_lt (by linarith) (by linarith)]
  ring

theorem wrapInt_max_succ (w : Nat) (hw : 1 ≤ w) :
    wrapInt w ((2 ^ (w - 1) - 1) + 1) = -(2 ^ (w - 1)) := by
  unfold wrapInt
  have h2 : (2 : Int) ^ w = 2 * 2 ^ (w - 1) := by
    obtain ⟨n, rfl⟩ : ∃ n, w = n + 1 := ⟨w - 1, by omega⟩
    simp [pow_succ, mul_comm]
  have h3 : ((2 : Int) ^ (w - 1) - 1 + 1 + 2 ^ (w - 1)) = 2 * 2 ^ (w - 1) := by ring
  rw [h3, h2, Int.emod_self]
  ring

theorem registerStep_token_of_range {κ : Type} (intBits : Nat) (resolve : κ)
    (r : Registry κ) (hw : 1 ≤ intBits)
    (hlo : -(2 ^ (intBits - 1)) ≤ r.nextResolverToken)
    (hhi : r.nextResolverToken + 1 < 2 ^ (intBits - 1)) :
    (registerStep intBits resolve r).1 = r.nextResolverToken + 1 ∧
    (registerStep intBits resolve r).2.nextResolverToken = r.nextResolverToken + 1 :=
  ⟨wrapInt_of_range intBits _ hw (by linarith) hhi,
   wrapInt_of_range intBits _ hw (by linarith) hhi⟩

/-- Successive register steps below the top of the counter's range allocate
`counter + 1`, `counter + 2`, ... : every token lies above the starting counter, the
tokens increase strictly, and the counter ends at the last of them. -/
theorem registerSteps_tokens_increasing {κ : Type} (intBits : Nat) (hw : 1 ≤ intBits)
    (cbs : List κ) : ∀ r : Registry κ,
    -(2 ^ (intBits - 1)) ≤ r.nextResolverToken →
    r.nextResolverToken + cbs.length < 2 ^ (intBits - 1) →
    (registerSteps intBits cbs r).2.nextResolverToken = r.nextResolverToken + cbs.length ∧
    (∀ t ∈ (registerSteps intBits cbs r).1,
      r.nextResolverToken < t ∧ t ≤ r.nextResolverToken + cbs.length) ∧
    (registerSteps intBits cbs r).1.Pairwise (fun a b => a < b) := by
  induction cbs with
  | nil =>
    intro r _ _
    simp [registerSteps]
  | cons cb cbs ih =>
    intro r hlo hhi
    have hlen : ((cb :: cbs).length : Int) = (cbs.length : Int) + 1 := by simp
    rw [hlen] at hhi ⊢
    have hnn : (0 : Int) ≤ (cbs.length : Int) := Int.natCast_nonneg _
    obtain ⟨h1, h2⟩ := registerStep_token_of_range intBits cb r hw hlo (by linarith)
    obtain ⟨h3, h4, h5⟩ := ih (registerStep intBits cb r).2 (by rw [h2]; linarith)
      (by rw [h2]; linarith)
    rw [h2] at h3 h4
    refine ⟨?_, ?_, ?_⟩
    · show (registerSteps intBits cbs (registerStep intBits cb r).2).2.nextResolverToken = _
      rw [h3]; ring
    · intro t ht
      have ht2 : t = (registerStep intBits cb r).1 ∨
          t ∈ (registerSteps intBits cbs (registerStep intBits cb r).2).1 :=
        List.mem_cons.1 ht
      rcases ht2 with h | h
      · rw [h, h1]
        constructor <;> linarith
      · have := h4 t h
        constructor <;> linarith [this.1, this.2]
    · show List.Pairwise _ ((registerStep intBits cb r).1 ::
        (registerSteps intBits cbs (registerStep intBits cb r).2).1)
      refine List.pairwise_cons.2 ⟨?_, h5⟩
      intro t ht
      rw [h1]
      exact (h4 t ht).1

/-- When the foreign call leaves the registry as it found it, and the token was not a
key before the call, `Engine.LoadModule` leaves every key of the table reading what
it read before the call. -/
theorem LoadModule_table_restored {κ : Type} (intBits : Nat) (v8 : V8 κ)
    (e : Engine) (source origin : String) (resolve : κ) (w : World κ)
    (hfor : (Engine.LoadModule.rtn intBits v8 e source origin resolve w).2.1
      = (Engine.LoadModule.call intBits e source origin resolve w).registry)
    (hnew : ∀ v, ((registerStep intBits resolve w.registry).1, v) ∉
      w.registry.resolverFuncs) (k : Int) :
    tableLookup k
      (Engine.LoadModule intBits v8 e source origin resolve w).2.registry.resolverFuncs
      = tableLookup k w.registry.resolverFuncs := by
  have hreg : (Engine.LoadModule intBits v8 e source origin resolve w).2.registry
      = deleteStep (registerStep intBits resolve w.registry).1
          (Engine.LoadModule.rtn intBits v8 e source origin resolve w).2.1 := rfl
  have hcall : (Engine.LoadModule.call intBits e source origin resolve w).registry
      = (registerStep intBits resolve w.registry).2 := rfl
  rw [hreg, hfor, hcall]
  show tableLookup k (tableDelete _ (tableStore _ resolve w.registry.resolverFuncs)) = _
  rw [tableLookup_delete]
  by_cases hk : k = (registerStep intBits resolve w.registry).1
  · rw [if_pos hk, hk, tableLookup_eq_none_of_not_key _ _ hnew]
  · rw [if_neg hk, tableLookup_store]
    exact if_neg hk

/-- Whatever the width of the counter's type above 32 bits, the token allocated at the
counter `2^31 - 1` is `2^31` and its conversion to the C `int` is `-2^31`. -/
theorem cInt_token_wraps_above_32_bits {κ : Type} (intBits : Nat) (hw : 33 ≤ intBits)
    (resolve : κ) (r : Registry κ) (hc : r.nextResolverToken = 2147483647) :
    (registerStep intBits resolve r).1 = 2147483648 ∧
    cInt (registerStep intBits resolve r).1 = -2147483648 := by
  have hpow : (2 : Int) ^ 32 ≤ 2 ^ (intBits - 1) :=
    pow_le_pow_right₀ (by norm_num) (by omega)
  have htok : (registerStep intBits resolve r).1 = 2147483648 := by
    have := (registerStep_token_of_range intBits resolve r (by omega)
      (by rw [hc]; linarith [pow_pos (show (0 : Int) < 2 by norm_num) (intBits - 1)])
      (by rw [hc]; norm_num at hpow ⊢; linarith)).1
    rw [this, hc]
    norm_num
  refine ⟨htok, ?_⟩
  rw [htok]
  decide

/-- C9, as stated, fails once the token leaves the range of the C `int`.  With a 64
bit counter at `2^31 - 1` the token allocated is `2^31`, `C.int(token)` is `-2^31`,
and the table the foreign call sees has no entry under that integer. -/
theorem LoadModule_token_truncated_counterexample :
    (Engine.LoadModule.call 64 engine41 "import './a.js'" "entry.js" 7
      ({ World.fresh with
         registry := { nextResolverToken := 2147483647, resolverFuncs := [] } })).token
      = 2147483648 ∧
    (Engine.LoadModule.call 64 engine41 "import './a.js'" "entry.js" 7
      ({ World.fresh with
         registry := { nextResolverToken := 2147483647, resolverFuncs := [] } })).cToken
      = -2147483648 ∧
    tableLookup
      (Engine.LoadModule.call 64 engine41 "import './a.js'" "entry.js" 7
        ({ World.fresh with
           registry := { nextResolverToken := 2147483647, resolverFuncs := [] } })).cToken
      (Engine.LoadModule.call 64 engine41 "import './a.js'" "entry.js" 7
        ({ World.fresh with
           registry := { nextResolverToken := 2147483647, resolverFuncs := [] }
        })).registry.resolverFuncs
      = none := by
  refine ⟨?_, ?_, ?_⟩ <;> decide

/-- C9 amended: when the counter's type is at least as wide as the C `int` and
`counter + 1` lies in the range of the C `int`, the integer `Engine.LoadModule` hands
to `C.LoadModule` is the token itself, it is a key of the resolver table the foreign
call sees, and looking it up there yields the `resolve` of this call. -/
theorem LoadModule_hands_over_registered_token {κ : Type} (intBits : Nat) (e : Engine)
    (source origin : String) (resolve : κ) (w : World κ) (hw : 32 ≤ intBits)
    (hlo : -(2 ^ 31) ≤ w.registry.nextResolverToken + 1)
    (hhi : w.registry.nextResolverToken + 1 < 2 ^ 31) :
    (Engine.LoadModule.call intBits e source origin resolve w).cToken
      = w.registry.nextResolverToken + 1 ∧
    (Engine.LoadModule.call intBits e source origin resolve w).cToken
      = (Engine.LoadModule.call intBits e source origin resolve w).token ∧
    ((Engine.LoadModule.call intBits e source origin resolve w).cToken, resolve) ∈
      (Engine.LoadModule.call intBits e source origin resolve w).registry.resolverFuncs ∧
    tableLookup (Engine.LoadModule.call intBits e source origin resolve w).cToken
      (Engine.LoadModule.call intBits e source origin resolve w).registry.resolverFuncs
      = some resolve := by
  have hpow : (2 : Int) ^ 31 ≤ 2 ^ (intBits - 1) :=
    pow_le_pow_right₀ (by norm_num) (by omega)
  have htok : (Engine.LoadModule.call intBits e source origin resolve w).token
      = w.registry.nextResolverToken + 1 :=
    wrapInt_of_range intBits _ (by omega) (by linarith) (by linarith)
  have hc : (Engine.LoadModule.call intBits e source origin resolve w).cToken
      = w.registry.nextResolverToken + 1 := by
    show cInt (Engine.LoadModule.call intBits e source origin resolve w).token = _
    rw [htok]
    exact wrapInt_of_range 32 _ (by norm_num) (by simpa using hlo) (by simpa using hhi)
  have hreg : (Engine.LoadModule.call intBits e source origin resolve w).registry.resolverFuncs
      = tableStore (Engine.LoadModule.call intBits e source origin resolve w).token resolve
          w.registry.resolverFuncs := rfl
  refine ⟨hc, by rw [hc, htok], ?_, ?_⟩
  · rw [hreg, hc, htok]
    exact List.mem_cons_self _ _
  · rw [hreg, hc, htok, tableLookup_store]
    simp

/-- C9 amended, evaluated on the last counter value whose successor fits the C
`int`. -/
theorem LoadModule_hands_over_registered_token_witness :
    tableLookup
      (Engine.LoadModule.call 64 engine41 "import './a.js'" "entry.js" 7
        ({ World.fresh with
           registry := { nextResolverToken := 2147483646, resolverFuncs := [(3, 9)] }
        })).cToken
      (Engine.LoadModule.call 64 engine41 "import './a.js'" "entry.js" 7
        ({ World.fresh with
           registry := { nextResolverToken := 2147483646, resolverFuncs := [(3, 9)] }
        })).registry.resolverFuncs
      = some 7 :=
  (LoadModule_hands_over_registered_token 64 engine41 "import './a.js'" "entry.js" 7
    ({ World.fresh with
       registry := { nextResolverToken := 2147483646, resolverFuncs := [(3, 9)] } })
    (by decide) (by decide) (by decide)).2.2.2

/-! ## Teardown -/

theorem digitValue_digitChar (d : Nat) (h : d < 10) : digitValue (Nat.digitChar d) = d := by
  interval_cases d <;> rfl

theorem digitChar_ne_minus (d : Nat) (h : d < 10) : Nat.digitChar d ≠ '-' := by
  interval_cases d <;> decide

theorem parse_toDigitsCore (fuel : Nat) : ∀ (n : Nat) (ds : List Char), n < fuel →
    (Nat.toDigitsCore 10 fuel n ds).foldl (fun a c => 10 * a + digitValue c) 0
      = ds.foldl (fun a c => 10 * a + digitValue c) n := by
  induction fuel with
  | zero => intro n ds h; omega
  | succ fuel ih =>
    intro n ds h
    have hd : digitValue (Nat.digitChar (n % 10)) = n % 10 :=
      digitValue_digitChar _ (Nat.mod_lt _ (by norm_num))
    rw [Nat.toDigitsCore]
    by_cases h0 : n / 10 = 0
    · simp only [h0, if_true, List.foldl_cons, hd]
      have : n % 10 = n := Nat.mod_eq_of_lt (by omega)
      simp [this]
    · simp only [h0, if_false]
      rw [ih (n / 10) _ (by omega), List.foldl_cons, hd]
      congr 1
      omega

theorem toDigitsCore_head (fuel : Nat) : ∀ (n : Nat) (ds : List Char),
    ((∃ d rest, d < 10 ∧ ds = Nat.digitChar d :: rest) ∨ fuel ≠ 0) →
    ∃ d rest, d < 10 ∧ Nat.toDigitsCore 10 fuel n ds = Nat.digitChar d :: rest := by
  induction fuel with
  | zero =>
    intro n ds h
    rcases h with h | h
    · simpa [Nat.toDigitsCore] using h
    · exact absurd rfl h
  | succ fuel ih =>
    intro n ds _
    rw [Nat.toDigitsCore]
    by_cases h0 : n / 10 = 0
    · simp only [h0, if_true]
      exact ⟨n % 10, ds, Nat.mod_lt _ (by norm_num), rfl⟩
    · simp only [h0, if_false]
      exact ih _ _ (Or.inl ⟨n % 10, ds, Nat.mod_lt _ (by norm_num), rfl⟩)

theorem parseNat_repr (n : Nat) : parseNat (Nat.repr n).data = n := by
  show (Nat.toDigitsCore 10 (n + 1) n []).foldl _ 0 = n
  rw [parse_toDigitsCore (n + 1) n [] (by omega)]
  rfl

theorem parseD_fmtD (x : Int) : parseD (fmtD x) = x := by
  unfold fmtD
  by_cases hx : x < 0
  · rw [if_pos hx]
    have hdata : ("-" ++ Nat.repr x.natAbs).data = '-' :: (Nat.repr x.natAbs).data := rfl
    unfold parseD
    rw [hdata]
    simp only [parseNat_repr]
    omega
  · rw [if_neg hx]
    obtain ⟨d, rest, hd, hrepr⟩ :=
      toDigitsCore_head (x.natAbs + 1) x.natAbs [] (Or.inr (by omega))
    have hdata : (Nat.repr x.natAbs).data = Nat.digitChar d :: rest := hrepr
    have hval : parseNat (Nat.repr x.natAbs).data = x.natAbs := parseNat_repr _
    unfold parseD
    rw [hdata] at hval ⊢
    have hne := digitChar_ne_minus d hd
    split
    · rename_i cs heq
      exact absurd (List.cons.inj heq).1 hne
    · rw [hval]
      omega

/-- C6: for every payload, the empty one included, and every status `status` that
`C.Send` reports on the engine's handle, the payload's length and the payload's copy,
`Engine.Send` returns nil exactly when `status` is `0`; for any other status it
returns the generic error whose description is `expected 0, got ` followed by the
status in decimal, a numeral from which the status reads back; native memory is left
as `C.Send` left it. -/
theorem Send_error_iff_status_nonzero {κ : Type} (v8 : V8 κ) (e : Engine)
    (msg : List Nat) (w : World κ) (status : Int) (n : Native)
    (h : v8.Send e.contextPtr msg.length (w.native.alloc (Cell.bytes msg)).1
      (w.native.alloc (Cell.bytes msg)).2 = (status, n)) :
    ((Engine.Send v8 e msg w).1 = none ↔ status = 0) ∧
    (status ≠ 0 →
      (Engine.Send v8 e msg w).1 =
        some (GoError.errorf ("expected 0, got " ++ fmtD status))) ∧
    (status = 0 → (Engine.Send v8 e msg w).1 = none) ∧
    parseD (fmtD status) = status ∧
    (Engine.Send v8 e msg w).2.native = n := by
  have hs : (Engine.Send v8 e msg w).1 =
      (if status = 0 then none
       else some (GoError.errorf ("expected 0, got " ++ fmtD status))) := by
    unfold Engine.Send
    by_cases h0 : status = 0
    · simp [h, h0]
    · simp [h, h0]
  have hn : (Engine.Send v8 e msg w).2.native = n := by
    unfold Engine.Send
    by_cases h0 : status = 0
    · simp [h, h0]
    · simp [h, h0]
  refine ⟨?_, ?_, ?_, parseD_fmtD _, hn⟩
  · rw [hs]
    by_cases h0 : status = 0
    · simp [h0]
    · simp [h0]
  · intro h0
    rw [hs, if_neg h0]
  · intro h0
    rw [hs, if_pos h0]

/-- C6 evaluated: the empty payload with the handler reporting `-7`, and a payload of
three bytes with the handler reporting `0`. -/
theorem Send_error_iff_status_nonzero_witness :
    (Engine.Send (v8Fixed ⟨0, ⟨0, 0, 0⟩⟩ (-7)) engine41 [] World.fresh).1 =
      some (GoError.errorf "expected 0, got -7") ∧
    (Engine.Send (v8Fixed ⟨0, ⟨0, 0, 0⟩⟩ 0) engine41 [1, 2, 3] World.fresh).1 = none :=
  ⟨(Send_error_iff_status_nonzero (v8Fixed ⟨0, ⟨0, 0, 0⟩⟩ (-7)) engine41 [] World.fresh
      (-7) (World.fresh.native.alloc (Cell.bytes [])).2 rfl).2.1 (by decide),
   (Send_error_iff_status_nonzero (v8Fixed ⟨0, ⟨0, 0, 0⟩⟩ 0) engine41 [1, 2, 3]
      World.fresh 0 (World.fresh.native.alloc (Cell.bytes [1, 2, 3])).2 rfl).2.2.1 rfl⟩

/-! ## Bootstrap -/

theorem Native.alloc_ne_zero (c : Cell) (n : Native) : (n.alloc c).1 ≠ 0 := by
  simp [Native.alloc]

theorem Native.alloc_alloc_ne (c d : Cell) (n : Native) :
    ((n.alloc c).2.alloc d).1 ≠ (n.alloc c).1 := by
  simp [Native.alloc]

/-- What `Engine.LoadModule` does with its argument copies: allocate the source copy
and the origin copy, then free the origin copy and the source copy, one call of
`C.free` for each, whatever the foreign call answers. -/
theorem LoadModule_releases_its_copies {κ : Type} (intBits : Nat) (v8 : V8 κ)
    (e : Engine) (source origin : String) (resolve : κ) (w : World κ) :
    (Engine.LoadModule intBits v8 e source origin resolve w).2.log =
      w.log ++
        [Event.CString (w.native.alloc (Cell.text (cText source))).1,
         Event.CString ((w.native.alloc (Cell.text (cText source))).2.alloc
           (Cell.text (cText origin))).1,
         Event.free ((w.native.alloc (Cell.text (cText source))).2.alloc
           (Cell.text (cText origin))).1,
         Event.free (w.native.alloc (Cell.text (cText source))).1] ∧
    ((Engine.LoadModule intBits v8 e source origin resolve w).2.log.drop
      w.log.length).count
        (Event.free (w.native.alloc (Cell.text (cText source))).1) = 1 ∧
    ((Engine.LoadModule intBits v8 e source origin resolve w).2.log.drop
      w.log.length).count
        (Event.free ((w.native.alloc (Cell.text (cText source))).2.alloc
           (Cell.text (cText origin))).1) = 1 := by
  have hlog : (Engine.LoadModule intBits v8 e source origin resolve w).2.log =
      w.log ++
        [Event.CString (w.native.alloc (Cell.text (cText source))).1,
         Event.CString ((w.native.alloc (Cell.text (cText source))).2.alloc
           (Cell.text (cText origin))).1,
         Event.free ((w.native.alloc (Cell.text (cText source))).2.alloc
           (Cell.text (cText origin))).1,
         Event.free (w.native.alloc (Cell.text (cText source))).1] := rfl
  have hne := Native.alloc_alloc_ne (Cell.text (cText source)) (Cell.text (cText origin))
    w.native
  refine ⟨hlog, ?_, ?_⟩
  · rw [hlog, List.drop_left]
    simp [List.count_cons, hne]
  · rw [hlog, List.drop_left]
    simp [List.count_cons, Ne.symm hne]

/-- What `Engine.Run` does with its argument copies: allocate both, let `getError`
free the texts of the error record if there is one, then free the origin copy and
the source copy. -/
theorem Run_releases_its_copies {κ : Type} (v8 : V8 κ) (e : Engine)
    (source origin : String) (w : World κ) :
    (Engine.Run v8 e source origin w).2.log =
      w.log ++
        [Event.CString (w.native.alloc (Cell.text (cText source))).1,
         Event.CString ((w.native.alloc (Cell.text (cText source))).2.alloc
           (Cell.text (cText origin))).1] ++
        (if (Engine.Run.rtn v8 e source origin w).1.error.msg = 0 then []
         else [Event.free (Engine.Run.rtn v8 e source origin w).1.error.msg,
               Event.free (Engine.Run.rtn v8 e source origin w).1.error.location,
               Event.free (Engine.Run.rtn v8 e source origin w).1.error.stack]) ++
        [Event.free ((w.native.alloc (Cell.text (cText source))).2.alloc
           (Cell.text (cText origin))).1,
         Event.free (w.native.alloc (Cell.text (cText source))).1] := by
  unfold Engine.Run getError
  by_cases h : (Engine.Run.rtn v8 e source origin w).1.error.msg = 0
  · simp [h]
  · simp [h]

/-- What `Engine.Send` does with its payload copy, for every payload and every foreign
outcome: one call of `C.CBytes`, and no call of `C.free` at all. -/
theorem Send_never_frees {κ : Type} (v8 : V8 κ) (e : Engine) (msg : List Nat)
    (w : World κ) :
    (Engine.Send v8 e msg w).2.log =
      w.log ++ [Event.CBytes (w.native.alloc (Cell.bytes msg)).1] ∧
    (w.native.alloc (Cell.bytes msg)).1 ≠ 0 ∧
    ∀ p, ((Engine.Send v8 e msg w).2.log.drop w.log.length).count (Event.free p) = 0 := by
  have hlog : (Engine.Send v8 e msg w).2.log =
      w.log ++ [Event.CBytes (w.native.alloc (Cell.bytes msg)).1] := by
    unfold Engine.Send
    by_cases h : (v8.Send e.contextPtr msg.length (w.native.alloc (Cell.bytes msg)).1
        (w.native.alloc (Cell.bytes msg)).2).1 = 0
    · simp [h]
    · simp [h]
  refine ⟨hlog, Native.alloc_ne_zero _ _, fun p => ?_⟩
  rw [hlog, List.drop_left]
  simp

/-- C10, the failing input: `Send` of the payload `[1, 2, 3]` in a fresh process, the
foreign handler answering `0`.  The bridge copies the payload to the address `1` and
returns without a call of `C.free`: the copy is still live when `Send` has returned.
`LoadModule` in the same world frees both of its copies. -/
theorem Send_leaks_payload_copy :
    (Engine.Send (v8Fixed ⟨0, ⟨0, 0, 0⟩⟩ 0) engine41 [1, 2, 3] World.fresh).1 = none ∧
    (Engine.Send (v8Fixed ⟨0, ⟨0, 0, 0⟩⟩ 0) engine41 [1, 2, 3] World.fresh).2.log
      = [Event.CBytes 1] ∧
    (Engine.Send (v8Fixed ⟨0, ⟨0, 0, 0⟩⟩ 0) engine41 [1, 2, 3] World.fresh).2.native.cells
      = [(1, Cell.bytes [1, 2, 3])] ∧
    (Engine.Send (v8Fixed ⟨0, ⟨0, 0, 0⟩⟩ 0) engine41 [] World.fresh).2.log
      = [Event.CBytes 1] ∧
    (Engine.LoadModule 64 (v8Fixed ⟨0, ⟨0, 0, 0⟩⟩ 0) engine41 "import './a.js'" "entry.js"
      7 World.fresh).2.log
      = [Event.CString 1, Event.CString 2, Event.free 2, Event.free 1] ∧
    (Engine.LoadModule 64 (v8Fixed ⟨0, ⟨0, 0, 0⟩⟩ 0) engine41 "import './a.js'" "entry.js"
      7 World.fresh).2.native.cells = [] := by
  refine ⟨?_, ?_, ?_, ?_, ?_, ?_⟩ <;> decide

end V8Engine
